import Mathlib

/-!
Verification development for the four financial-analysis HTTP services
(company analysis, historical data, company info, real-time quote).

Modelling conventions:
* IEEE-754 doubles are idealised as exact rationals extended with the
  special values NaN, +inf and -inf (type FV below).  Negative zero is
  not modelled.  Arithmetic on the special values follows IEEE-754
  (inf - inf = NaN, x / 0 = +-inf for x nonzero, 0 / 0 = NaN, and so on),
  which is what numpy / pandas produce.
* Python round(x, 2) and numpy round are round-half-to-even; we apply it
  to the exact rational.
* pandas pct_change is modelled with no forward filling of missing
  values (the modern pandas default; the spec's wording "dropped, not
  zero-filled" matches this behaviour), computing cur / prev - 1.
* pandas Series.max / .min skip NaN entries and return NaN when every
  entry is NaN; rolling(w).mean() yields NaN when the window of the last
  w entries contains a NaN (min_periods defaults to the window size).
* Python str digits are modelled as the ASCII digits 0-9 and upper-case
  conversion as ASCII upper-casing; str.isalnum is modelled as ASCII
  alphanumeric.  (Python is Unicode-aware; every claim here only
  involves ASCII data.)
* str(e) for a FastAPI/starlette HTTPException is
  "status_code: detail", the __str__ defined by starlette.
* Exceptions are modelled as Except with the exception's str as payload;
  the blanket except-branches of the endpoints only inspect that string.
-/

/-- An IEEE double idealised as an exact rational or a special value. -/
inductive FV where
  | fin : ℚ → FV
  | nan : FV
  | inf : FV
  | ninf : FV
deriving DecidableEq, Repr

instance : Inhabited FV := ⟨FV.nan⟩

/-- pd.isna: true exactly on NaN. -/
def isna : FV → Bool
  | .nan => true
  | _ => false

/-- IEEE addition on the idealised doubles. -/
def addFV : FV → FV → FV
  | .fin a, .fin b => .fin (a + b)
  | .fin _, .inf => .inf
  | .fin _, .ninf => .ninf
  | .inf, .fin _ => .inf
  | .ninf, .fin _ => .ninf
  | .inf, .inf => .inf
  | .ninf, .ninf => .ninf
  | .inf, .ninf => .nan
  | .ninf, .inf => .nan
  | .nan, _ => .nan
  | _, .nan => .nan

/-- IEEE subtraction. -/
def subFV : FV → FV → FV
  | .fin a, .fin b => .fin (a - b)
  | .fin _, .inf => .ninf
  | .fin _, .ninf => .inf
  | .inf, .fin _ => .inf
  | .ninf, .fin _ => .ninf
  | .inf, .inf => .nan
  | .ninf, .ninf => .nan
  | .inf, .ninf => .inf
  | .ninf, .inf => .ninf
  | .nan, _ => .nan
  | _, .nan => .nan

/-- IEEE multiplication. -/
def mulFV : FV → FV → FV
  | .fin a, .fin b => .fin (a * b)
  | .fin a, .inf => if 0 < a then .inf else if a < 0 then .ninf else .nan
  | .fin a, .ninf => if 0 < a then .ninf else if a < 0 then .inf else .nan
  | .inf, .fin a => if 0 < a then .inf else if a < 0 then .ninf else .nan
  | .ninf, .fin a => if 0 < a then .ninf else if a < 0 then .inf else .nan
  | .inf, .inf => .inf
  | .inf, .ninf => .ninf
  | .ninf, .inf => .ninf
  | .ninf, .ninf => .inf
  | .nan, _ => .nan
  | _, .nan => .nan

/-- IEEE division (positive zero only: x / 0 = +-inf by the sign of x). -/
def divFV : FV → FV → FV
  | .fin a, .fin b =>
      if b ≠ 0 then .fin (a / b)
      else if 0 < a then .inf else if a < 0 then .ninf else .nan
  | .fin _, .inf => .fin 0
  | .fin _, .ninf => .fin 0
  | .inf, .fin b => if 0 ≤ b then .inf else .ninf
  | .ninf, .fin b => if 0 ≤ b then .ninf else .inf
  | .inf, .inf => .nan
  | .inf, .ninf => .nan
  | .ninf, .inf => .nan
  | .ninf, .ninf => .nan
  | .nan, _ => .nan
  | _, .nan => .nan

/-- Strict less-than on doubles; false whenever either side is NaN. -/
def ltFV : FV → FV → Bool
  | .fin a, .fin b => a < b
  | .fin _, .inf => true
  | .ninf, .fin _ => true
  | .ninf, .inf => true
  | _, _ => false

/-- Strict greater-than on doubles; false whenever either side is NaN. -/
def gtFV (a b : FV) : Bool := ltFV b a

/-- Floor of a rational, written with Euclidean division so that it
    evaluates inside the kernel (the denominator is positive, so
    Int.ediv num den is the floor). -/
def floorQ (q : ℚ) : ℤ := Int.ediv q.num q.den

/-- Round-half-to-even to an integer (semantics of Python round / np.round
    applied to the exact rational). -/
def roundHE (x : ℚ) : ℤ :=
  let n := floorQ x
  let f := x - n
  if f < 1/2 then n
  else if 1/2 < f then n + 1
  else if n % 2 = 0 then n else n + 1

/-- round(x, 2): round-half-to-even at two decimal places. -/
def round2 (q : ℚ) : ℚ := (roundHE (q * 100) : ℚ) / 100

/-- round(x, 2) lifted to doubles; round of NaN / inf is itself. -/
def round2FV : FV → FV
  | .fin q => .fin (round2 q)
  | v => v

/-- Floor of the square root of a nonnegative rational a/b, computed as
    Nat.sqrt (a*b) / b (since sqrt (a/b) = sqrt (a*b) / b). -/
def sqrtFloorQ (x : ℚ) : ℕ :=
  Nat.sqrt (x.num.toNat * x.den) / x.den

/-- Nearest natural number to the square root of a nonnegative rational,
    ties going to even (sqrt x is compared with n + 1/2 via 4x vs (2n+1)^2). -/
def sqrtRoundHE (x : ℚ) : ℕ :=
  let n := sqrtFloorQ x
  if 4 * x < ((2 * n + 1 : ℕ) : ℚ) ^ 2 then n
  else if ((2 * n + 1 : ℕ) : ℚ) ^ 2 < 4 * x then n + 1
  else if n % 2 = 0 then n else n + 1

/-- round(sqrt r, 2) for a nonnegative rational radicand r: equals
    (round-half-even of 100 * sqrt r) / 100 = roundHE(sqrt (r * 10000)) / 100. -/
def round2sqrt (r : ℚ) : ℚ := ((sqrtRoundHE (r * 10000) : ℕ) : ℚ) / 100

/-- Sum of a list of doubles (IEEE propagation of NaN / inf). -/
def sumFV (l : List FV) : FV := l.foldr addFV (.fin 0)

/-- Arithmetic mean of a list of doubles: sum / length. -/
def meanFV (l : List FV) : FV := divFV (sumFV l) (.fin (l.length : ℚ))

/-- pandas max with skipna: maximum of the non-NaN entries, NaN when all
    entries are NaN. -/
def maxFV2 : FV → FV → FV
  | .fin a, .fin b => .fin (max a b)
  | .inf, _ => .inf
  | _, .inf => .inf
  | .fin a, _ => .fin a
  | _, .fin b => .fin b
  | a, _ => a

def maxSkipNa (l : List FV) : FV :=
  match l.filter (fun x => !isna x) with
  | [] => .nan
  | x :: xs => xs.foldl maxFV2 x

/-- pandas min with skipna. -/
def minFV2 : FV → FV → FV
  | .fin a, .fin b => .fin (min a b)
  | .ninf, _ => .ninf
  | _, .ninf => .ninf
  | .fin a, _ => .fin a
  | _, .fin b => .fin b
  | a, _ => a

def minSkipNa (l : List FV) : FV :=
  match l.filter (fun x => !isna x) with
  | [] => .nan
  | x :: xs => xs.foldl minFV2 x

/- ---------------- string helpers ---------------- -/

/-- Does the second list start with the first? -/
def startsWithL : List Char → List Char → Bool
  | [], _ => true
  | _ :: _, [] => false
  | p :: ps, c :: cs => p = c && startsWithL ps cs

/-- Python substring containment: pat in s. -/
def containsL (pat : List Char) : List Char → Bool
  | [] => startsWithL pat []
  | c :: cs => startsWithL pat (c :: cs) || containsL pat cs

/-- Python "sub" in "str" on Strings. -/
def containsStr (pat s : String) : Bool := containsL pat.data s.data

/-- Python str.split('.'). -/
def splitDot : List Char → List (List Char)
  | [] => [[]]
  | c :: r =>
    if c = '.' then [] :: splitDot r
    else
      match splitDot r with
      | [] => [[c]]
      | p :: ps => (c :: p) :: ps

/-- ASCII model of Python str.isalnum on a single character. -/
def isalnumC (c : Char) : Bool := c.isAlphanum

/-- Python str.isalnum: non-empty and every character alphanumeric. -/
def isalnumStr (l : List Char) : Bool := !l.isEmpty && l.all isalnumC

/-- Python str.upper (ASCII model). -/
def upperStr (s : String) : String := ⟨s.data.map Char.toUpper⟩

/- ---------------- validate_symbol ---------------- -/

/-- validate_symbol from the sources (identical in all four files):
    symbol.isalnum() or ('.' in symbol and
    all(part.isalnum() for part in symbol.split('.'))). -/
def validate_symbol (symbol : String) : Bool :=
  isalnumStr symbol.data ||
    (symbol.data.contains '.' &&
      (splitDot symbol.data).all (fun part => isalnumStr part))

/- ---------------- validate_date ---------------- -/

/-- Value of an ASCII digit character (the character class matched by the
    strptime regexes; code points 48-57). -/
def digitVal (c : Char) : Option ℕ :=
  if 48 ≤ c.toNat ∧ c.toNat ≤ 57 then some (c.toNat - 48) else none

/-- The %Y component of strptime: exactly four digit characters. -/
def parseY : List Char → Option (ℕ × List Char)
  | c1 :: c2 :: c3 :: c4 :: r =>
    match digitVal c1, digitVal c2, digitVal c3, digitVal c4 with
    | some a, some b, some c, some d => some (1000*a + 100*b + 10*c + d, r)
    | _, _, _, _ => none
  | _ => none

/-- Two-digit month candidate: the regex alternatives 1[0-2] | 0[1-9]
    (exactly the two-digit tokens with value 1..12). -/
def mTwo : List Char → List (ℕ × List Char)
  | c1 :: c2 :: r =>
    match digitVal c1, digitVal c2 with
    | some a, some b =>
      if (a = 1 ∧ b ≤ 2) ∨ (a = 0 ∧ 1 ≤ b) then [(10*a + b, r)] else []
    | _, _ => []
  | _ => []

/-- One-digit candidate for both %m and %d: the regex alternative [1-9]. -/
def oneDigit : List Char → List (ℕ × List Char)
  | c1 :: r =>
    match digitVal c1 with
    | some a => if 1 ≤ a then [(a, r)] else []
    | none => []
  | _ => []

/-- The %m component: candidates in regex alternation order. -/
def mCands (l : List Char) : List (ℕ × List Char) := mTwo l ++ oneDigit l

/-- Two-digit day candidate: the regex alternatives 3[01] | [12][0-9] | 0[1-9]
    (exactly the two-digit tokens with value 1..31). -/
def dTwo : List Char → List (ℕ × List Char)
  | c1 :: c2 :: r =>
    match digitVal c1, digitVal c2 with
    | some a, some b =>
      if (a = 3 ∧ b ≤ 1) ∨ (1 ≤ a ∧ a ≤ 2) ∨ (a = 0 ∧ 1 ≤ b) then
        [(10*a + b, r)] else []
    | _, _ => []
  | _ => []

/-- The %d component: candidates in regex alternation order. -/
def dCands (l : List Char) : List (ℕ × List Char) := dTwo l ++ oneDigit l

/-- The literal "-" of the strptime format string. -/
def expectDash : List Char → Option (List Char)
  | c :: r => if c = '-' then some r else none
  | _ => none

/-- All complete matches of the strptime "%Y-%m-%d" regex against the
    input (token choices are made with backtracking; a match must consume
    the whole string, else strptime raises "unconverted data remains").
    At most one complete match exists, so collecting all of them agrees
    with the regex engine's priority-first choice. -/
def dateParses (l : List Char) : List (ℕ × ℕ × ℕ) :=
  match parseY l with
  | none => []
  | some (y, r1) =>
    match expectDash r1 with
    | none => []
    | some r2 =>
      (mCands r2).flatMap (fun mc =>
        match expectDash mc.2 with
        | none => []
        | some r4 =>
          (dCands r4).filterMap (fun dc =>
            if dc.2 = [] then some (y, mc.1, dc.1) else none))

/-- Length of a month in the (proleptic) Gregorian calendar used by
    Python's datetime. -/
def daysInMonth (y m : ℕ) : ℕ :=
  if m = 2 then
    if y % 4 = 0 ∧ (y % 100 ≠ 0 ∨ y % 400 = 0) then 29 else 28
  else if m = 4 ∨ m = 6 ∨ m = 9 ∨ m = 11 then 30
  else 31

/-- The validity check performed by the datetime constructor
    (MINYEAR <= year <= MAXYEAR, 1 <= month <= 12, 1 <= day <= month length). -/
def dateOK (y m d : ℕ) : Bool :=
  1 ≤ y ∧ y ≤ 9999 ∧ 1 ≤ m ∧ m ≤ 12 ∧ 1 ≤ d ∧ d ≤ daysInMonth y m

/-- validate_date from the sources: datetime.strptime(s, "%Y-%m-%d")
    succeeds (regex match of the whole string, then constructor check). -/
def validate_date (s : String) : Bool :=
  (dateParses s.data).any (fun p => dateOK p.1 p.2.1 p.2.2)

/-- The (unique) parsed calendar value of a date string, used by the
    endpoints for the chronological comparison of start and end dates. -/
def parseDateVal (s : String) : Option (ℕ × ℕ × ℕ) :=
  ((dateParses s.data).filter (fun p => dateOK p.1 p.2.1 p.2.2)).head?

/-- Chronological order of two parsed dates (datetime comparison is
    lexicographic on (year, month, day); with months < 100 and days < 100
    this equals the order of y*10000 + m*100 + d). -/
def dateKey (p : ℕ × ℕ × ℕ) : ℕ := p.1 * 10000 + p.2.1 * 100 + p.2.2

/- ---------------- analytics transform (company_analysis lines 83-99) ---------------- -/

/-- The seven metric fields of the analysis response. -/
structure AnalysisMetrics where
  price_change_absolute : Option FV
  price_change_percent : Option FV
  volatility : Option FV
  sma_50 : Option FV
  sma_200 : Option FV
  recent_high : Option FV
  recent_low : Option FV
deriving DecidableEq, Repr

/-- pandas close.pct_change() with no forward filling: a leading NaN
    followed by cur / prev - 1 for each consecutive pair. -/
def pctChange (l : List FV) : List FV :=
  match l with
  | [] => []
  | _ :: _ =>
    .nan :: (l.zip l.tail).map (fun pc => subFV (divFV pc.2 pc.1) (.fin 1))

/-- daily_returns = close_prices.pct_change().dropna(): every NaN entry
    (the leading one, those from a NaN input and those from 0/0) is
    removed; infinite entries remain. -/
def dailyReturns (l : List FV) : List FV :=
  (pctChange l).filter (fun x => !isna x)

/-- The argument of the square root inside np.std: the mean of the
    squared deviations from the mean. -/
def stdSqArg (xs : List FV) : FV :=
  meanFV (xs.map (fun x => mulFV (subFV x (meanFV xs)) (subFV x (meanFV xs))))

/-- round(np.std(dr) * np.sqrt(252) * 100, 2), using
    sqrt v * sqrt 252 * 100 = sqrt (v * 252 * 10000) on the exact
    rationals; the square root of NaN is NaN and of +inf is +inf
    (the mean of squares is never a negative finite value). -/
def volFromReturns (dr : List FV) : FV :=
  match stdSqArg dr with
  | .fin v => .fin (round2sqrt (v * 2520000))
  | .inf => .inf
  | _ => .nan

/-- Trailing n entries of a list (the window of rolling(n) at the last row). -/
def lastN (n : ℕ) (l : List FV) : List FV := l.drop (l.length - n)

/-- round(close_prices.rolling(window=n).mean().iloc[-1], 2) guarded by
    len(close_prices) >= n: the mean of the last n closes (NaN when the
    window contains a NaN, matching min_periods = window). -/
def smaN (n : ℕ) (closes : List FV) : Option FV :=
  if n ≤ closes.length then some (round2FV (meanFV (lastN n closes))) else none

/-- The metric computations of get_company_analysis, lines 83-99.
    Callers only invoke this on a nonempty close series (the endpoint
    rejects an empty fetch with 404 first); the head / last defaults are
    never used on that path. -/
def analysisMetrics (closes : List FV) : AnalysisMetrics :=
  let first_price := closes.head?.getD .nan
  let last_price := closes.getLast?.getD .nan
  let price_change_absolute :=
    if isna first_price = false ∧ isna last_price = false then
      some (round2FV (subFV last_price first_price)) else none
  let price_change_percent :=
    if price_change_absolute ≠ none ∧ first_price ≠ .fin 0 then
      some (round2FV (mulFV (divFV (subFV last_price first_price) first_price)
        (.fin 100)))
    else none
  let dr := dailyReturns closes
  let volatility := if dr ≠ [] then some (volFromReturns dr) else none
  let sma_50 := smaN 50 closes
  let sma_200 := smaN 200 closes
  let recent_high :=
    if closes ≠ [] then some (round2FV (maxSkipNa closes)) else none
  let recent_low :=
    if closes ≠ [] then some (round2FV (minSkipNa closes)) else none
  ⟨price_change_absolute, price_change_percent, volatility, sma_50, sma_200,
    recent_high, recent_low⟩

/- ---------------- insight derivation (lines 101-120) ---------------- -/

/-- trend_direction, lines 101-113 of company_analysis_api1.py. -/
def trendDirection (pcp s50 s200 : Option FV) : String :=
  let t0 :=
    match pcp with
    | some p =>
      if gtFV p (.fin 5) then "Bullish"
      else if ltFV p (.fin (-5)) then "Bearish"
      else "Neutral"
    | none => "Neutral"
  match s50, s200 with
  | some a, some b =>
    if gtFV a b then (if t0 ≠ "Bullish" then "Bullish (SMA crossover)" else t0)
    else if ltFV a b then
      (if t0 ≠ "Bearish" then "Bearish (SMA crossover)" else t0)
    else t0
  | _, _ => t0

/-- volatility_assessment, lines 115-120. -/
def volatilityAssessment (v : Option FV) : String :=
  match v with
  | some x =>
    if gtFV x (.fin 30) then "High"
    else if ltFV x (.fin 15) then "Low"
    else "Moderate"
  | none => "Moderate"

/- ---------------- endpoint models ---------------- -/

/-- One row of the provider's history table (OHLCV; a missing cell is NaN). -/
structure HistRow where
  date : String
  open_ : FV
  high : FV
  low : FV
  close : FV
  volume : FV
deriving DecidableEq, Repr

/-- Outcome of ticker.history(...): either the table of rows (empty list
    = hist_data.empty) or an exception with the given str(e). -/
inductive Fetch where
  | series : List HistRow → Fetch
  | raises : String → Fetch
deriving DecidableEq, Repr

/-- An HTTP error response: status code plus the detail string that the
    exception handler serialises as the error field. -/
structure HTTPError where
  status : ℕ
  detail : String
deriving DecidableEq, Repr

/-- str(e) of a FastAPI HTTPException: "status_code: detail". -/
def httpExcStr (status : ℕ) (detail : String) : String :=
  toString status ++ (": ") ++ detail

/-- The request body of the analysis and historical-data endpoints. -/
structure AnalysisRequest where
  symbol : String
  start_date : String
  end_date : String
deriving DecidableEq, Repr

structure Insight where
  trend_direction : String
  volatility_assessment : String
deriving DecidableEq, Repr

structure AnalysisResponse where
  symbol : String
  metrics : AnalysisMetrics
  insights : Insight
deriving DecidableEq, Repr

/-- Body of the try-block of get_company_analysis (lines 67-149); an
    error is a raised exception, carried as its str(e). -/
def analysisTryBody (req : AnalysisRequest) (fetch : Fetch) :
    Except String AnalysisResponse :=
  let sd := (parseDateVal req.start_date).getD (0, 0, 0)
  let ed := (parseDateVal req.end_date).getD (0, 0, 0)
  if dateKey ed < dateKey sd then
    .error (httpExcStr 400 ("End date cannot be before start date"))
  else
    match fetch with
    | .raises msg => .error msg
    | .series rows =>
      if rows = [] then
        .error (httpExcStr 404
          ("No data found for " ++ req.symbol ++ " in the specified date range"))
      else
        let closes := rows.map HistRow.close
        let m := analysisMetrics closes
        .ok
          { symbol := upperStr req.symbol
            metrics := m
            insights :=
              { trend_direction :=
                  trendDirection m.price_change_percent m.sma_50 m.sma_200
                volatility_assessment := volatilityAssessment m.volatility } }

/-- The except-branch shared by all four endpoints (with the
    endpoint-specific 500 prefix): a 404 when "404" occurs in str(e),
    otherwise a 500 carrying the message. -/
def exceptBranch (symbol : String) (prefix500 : String) (msg : String) :
    HTTPError :=
  if containsStr ("404") msg then
    ⟨404, "Company symbol " ++ symbol ++ " not found"⟩
  else
    ⟨500, prefix500 ++ msg⟩

/-- POST /company_analysis, lines 53-154 of company_analysis_api1.py. -/
def get_company_analysis (req : AnalysisRequest) (fetch : Fetch) :
    Except HTTPError AnalysisResponse :=
  if req.symbol.data.isEmpty || !validate_symbol req.symbol then
    .error ⟨400, "Invalid company symbol"⟩
  else if !validate_date req.start_date || !validate_date req.end_date then
    .error ⟨400, "Invalid date format. Use YYYY-MM-DD"⟩
  else
    match analysisTryBody req fetch with
    | .ok r => .ok r
    | .error msg =>
      .error (exceptBranch req.symbol ("Error performing analysis: ") msg)

/-- One serialised row of the historical-data response. -/
structure HistoricalDataPoint where
  date : String
  open_ : Option FV
  high : Option FV
  low : Option FV
  close : Option FV
  volume : Option ℤ
deriving DecidableEq, Repr

structure HistoricalDataResponse where
  symbol : String
  data : List HistoricalDataPoint
deriving DecidableEq, Repr

/-- Python int() truncation toward zero of a rational. -/
def truncQ (q : ℚ) : ℤ := Int.tdiv q.num q.den

/-- int(row["Volume"]) guarded by pd.isna: None for NaN, truncation for a
    finite value, and an OverflowError for an infinite one. -/
def intOfVolume : FV → Except String (Option ℤ)
  | .nan => .ok none
  | .fin q => .ok (some (truncQ q))
  | .inf => .error ("cannot convert float infinity to integer")
  | .ninf => .error ("cannot convert float infinity to integer")

/-- Serialisation of one fetched row (lines 75-85 of
    historical_stock_data_api1.py). -/
def rowToPoint (r : HistRow) : Except String HistoricalDataPoint := do
  let v ← intOfVolume r.volume
  .ok
    { date := r.date
      open_ := if !isna r.open_ then some (round2FV r.open_) else none
      high := if !isna r.high then some (round2FV r.high) else none
      low := if !isna r.low then some (round2FV r.low) else none
      close := if !isna r.close then some (round2FV r.close) else none
      volume := v }

/-- The list comprehension of lines 75-85: rows are serialised in order
    and the first exception aborts the whole computation. -/
def rowsToPoints : List HistRow → Except String (List HistoricalDataPoint)
  | [] => .ok []
  | r :: rs =>
    match rowToPoint r with
    | .error e => .error e
    | .ok p =>
      match rowsToPoints rs with
      | .error e => .error e
      | .ok ps => .ok (p :: ps)

/-- Body of the try-block of get_historical_stock_data (lines 58-92). -/
def historicalTryBody (req : AnalysisRequest) (fetch : Fetch) :
    Except String HistoricalDataResponse :=
  let sd := (parseDateVal req.start_date).getD (0, 0, 0)
  let ed := (parseDateVal req.end_date).getD (0, 0, 0)
  if dateKey ed < dateKey sd then
    .error (httpExcStr 400 ("End date cannot be before start date"))
  else
    match fetch with
    | .raises msg => .error msg
    | .series rows =>
      if rows = [] then
        .error (httpExcStr 404
          ("No data found for " ++ req.symbol ++ " in the specified date range"))
      else
        match rowsToPoints rows with
        | .error e => .error e
        | .ok pts => .ok { symbol := upperStr req.symbol, data := pts }

/-- POST /historical_stock, lines 45-97 of historical_stock_data_api1.py. -/
def get_historical_stock_data (req : AnalysisRequest) (fetch : Fetch) :
    Except HTTPError HistoricalDataResponse :=
  if req.symbol.data.isEmpty || !validate_symbol req.symbol then
    .error ⟨400, "Invalid company symbol"⟩
  else if !validate_date req.start_date || !validate_date req.end_date then
    .error ⟨400, "Invalid date format. Use YYYY-MM-DD"⟩
  else
    match historicalTryBody req fetch with
    | .ok r => .ok r
    | .error msg =>
      .error (exceptBranch req.symbol ("Error retrieving historical data: ") msg)

/-- The fields of ticker.info read by the two GET endpoints; a key that
    the provider does not supply is None (the result of dict.get). -/
structure TickerInfo where
  marketState : Option String
  regularMarketPrice : Option ℚ
  regularMarketPreviousClose : Option ℚ
  regularMarketOpen : Option ℚ
  regularMarketDayHigh : Option ℚ
  regularMarketDayLow : Option ℚ
  regularMarketVolume : Option ℤ
  longName : Option String
  longBusinessSummary : Option String
  industry : Option String
  sector : Option String
  companyOfficers : List (Option String × Option String)
deriving DecidableEq, Repr

/-- Outcome of reading ticker.info: the dictionary, or an exception with
    the given str(e). -/
inductive InfoFetch where
  | info : TickerInfo → InfoFetch
  | raises : String → InfoFetch
deriving DecidableEq, Repr

structure StockDataResponse where
  symbol : String
  market_state : Option String
  current_price : Option ℚ
  percentage_change : Option ℚ
  open_price : Option ℚ
  high_price : Option ℚ
  low_price : Option ℚ
  volume : Option ℤ
  previous_close : Option ℚ
deriving DecidableEq, Repr

/-- GET /stock, lines 29-67 of stock_data_api1.py. -/
def get_stock_data (symbol : String) (fetch : InfoFetch) :
    Except HTTPError StockDataResponse :=
  if symbol.data.isEmpty || !validate_symbol symbol then
    .error ⟨400, "Invalid company symbol"⟩
  else
    match fetch with
    | .raises msg =>
      .error (exceptBranch symbol ("Error retrieving stock data: ") msg)
    | .info i =>
      let current_price := i.regularMarketPrice
      let previous_close := i.regularMarketPreviousClose
      let percentage_change :=
        match current_price, previous_close with
        | some cp, some pc =>
          if pc ≠ 0 then some ((cp - pc) / pc * 100) else none
        | _, _ => none
      .ok
        { symbol := upperStr symbol
          market_state := i.marketState
          current_price := current_price
          percentage_change := percentage_change.map round2
          open_price := i.regularMarketOpen
          high_price := i.regularMarketDayHigh
          low_price := i.regularMarketDayLow
          volume := i.regularMarketVolume
          previous_close := previous_close }

structure Officer where
  name : Option String
  title : Option String
deriving DecidableEq, Repr

structure CompanyInfoResponse where
  symbol : String
  company_name : Option String
  business_summary : Option String
  industry : Option String
  sector : Option String
  officers : List Officer
deriving DecidableEq, Repr

/-- GET /company, lines 33-72 of company_info_api1.py. -/
def get_company_info (symbol : String) (fetch : InfoFetch) :
    Except HTTPError CompanyInfoResponse :=
  if symbol.data.isEmpty || !validate_symbol symbol then
    .error ⟨400, "Invalid company symbol"⟩
  else
    match fetch with
    | .raises msg =>
      .error (exceptBranch symbol ("Error retrieving company data: ") msg)
    | .info i =>
      .ok
        { symbol := upperStr symbol
          company_name := i.longName
          business_summary := i.longBusinessSummary
          industry := i.industry
          sector := i.sector
          officers := i.companyOfficers.map (fun o => ⟨o.1, o.2⟩) }

/- ---------------- spec-side definitions ---------------- -/

/-- Spec-side (claim C4): the strict zero-padded YYYY-MM-DD format, four
    digits, dash, two digits, dash, two digits, denoting a valid
    calendar date. -/
def strictYMD (s : String) : Bool :=
  match s.data with
  | [y1, y2, y3, y4, h1, m1, m2, h2, d1, d2] =>
    match digitVal y1, digitVal y2, digitVal y3, digitVal y4,
        digitVal m1, digitVal m2, digitVal d1, digitVal d2 with
    | some a, some b, some c, some d, some e, some f, some g, some h =>
      h1 = '-' && h2 = '-' &&
        dateOK (1000*a + 100*b + 10*c + d) (10*e + f) (10*g + h)
    | _, _, _, _, _, _, _, _ => false
  | _ => false

/-- A token of one or two digit characters denoting the value v. -/
def TokVal (tok : List Char) (v : ℕ) : Prop :=
  (∃ c, tok = [c] ∧ digitVal c = some v) ∨
  (∃ c1 c2 a b, tok = [c1, c2] ∧ digitVal c1 = some a ∧ digitVal c2 = some b ∧
    v = 10 * a + b)

/-- A token of exactly four digit characters denoting the value v. -/
def Tok4Val (tok : List Char) (v : ℕ) : Prop :=
  ∃ c1 c2 c3 c4 a b c d, tok = [c1, c2, c3, c4] ∧
    digitVal c1 = some a ∧ digitVal c2 = some b ∧ digitVal c3 = some c ∧
    digitVal c4 = some d ∧ v = 1000*a + 100*b + 10*c + d

/-- Spec-side (amended claim C4): the string consists of a four-digit
    year, a dash, a one- or two-digit month, a dash and a one- or
    two-digit day, denoting a valid calendar date. -/
def LenientDate (s : String) : Prop :=
  ∃ y m d yTok mTok dTok,
    s.data = yTok ++ '-' :: (mTok ++ '-' :: dTok) ∧
    Tok4Val yTok y ∧ TokVal mTok m ∧ TokVal dTok d ∧
    dateOK y m d = true

/-- Spec-side (claim C9): non-empty, and fully alphanumeric or a
    dot-separated sequence of (non-empty) alphanumeric segments. -/
def specSymbolOK (s : String) : Prop :=
  s.data ≠ [] ∧
    ((∀ c ∈ s.data, isalnumC c = true) ∨
      ∀ part ∈ splitDot s.data, part ≠ [] ∧ ∀ c ∈ part, isalnumC c = true)

/-- Spec-side (claim C5): the trend label as the claim words it.  It
    starts at Neutral, becomes Bullish when the percent change exceeds 5
    and Bearish when it is below -5; then, when both SMAs are present,
    an SMA crossover overrides the label unless the plain label of the
    same direction is already set. -/
def specTrend (pcp s50 s200 : Option FV) : String :=
  let base :=
    match pcp with
    | some p =>
      if gtFV p (.fin 5) then "Bullish"
      else if ltFV p (.fin (-5)) then "Bearish"
      else "Neutral"
    | none => "Neutral"
  match s50, s200 with
  | some a, some b =>
    if gtFV a b then
      (if base = "Bullish" then base else "Bullish (SMA crossover)")
    else if ltFV a b then
      (if base = "Bearish" then base else "Bearish (SMA crossover)")
    else base
  | _, _ => base

/-- Spec-side (claim C8 as stated): the pairwise relative change
    (c[i] - c[i-1]) / c[i-1] over consecutive closes, keeping a result
    exactly when neither input is missing. -/
def specClaimDailyReturns (l : List FV) : List FV :=
  (l.zip l.tail).filterMap (fun pc =>
    if isna pc.1 ∨ isna pc.2 then none
    else some (divFV (subFV pc.2 pc.1) pc.1))

/-- Spec-side (amended claim C8): as the claim, but every NaN result is
    dropped - those coming from a missing input and the one coming from
    a 0 / 0 pair.  (cur / prev - 1 is the formula pandas computes; it
    agrees with (cur - prev) / prev away from infinite inputs.) -/
def specAmendedDailyReturns (l : List FV) : List FV :=
  ((l.zip l.tail).map (fun pc => subFV (divFV pc.2 pc.1) (.fin 1))).filter
    (fun x => !isna x)

/-- A response field that is either absent or a finite number. -/
def finOrNone : Option FV → Bool
  | none => true
  | some (.fin _) => true
  | some _ => false

/- ---------------- claim C1 ---------------- -/

/-- C1: an analysis request with valid symbol and dates for which the
    provider returns an empty series does produce HTTP 404, but the
    line-80 HTTPException carrying the range-naming message is swallowed
    by the blanket except of line 151 and replaced by
    "Company symbol AAPL not found", which names neither the phrase
    "date range" nor either requested date.  This evaluates the endpoint
    at the failing input. -/
theorem c1_empty_fetch_404_drops_range :
    get_company_analysis ⟨"AAPL", "2024-01-01", "2024-01-02"⟩ (Fetch.series []) =
      .error ⟨404, "Company symbol AAPL not found"⟩ ∧
    containsStr ("date range") ("Company symbol AAPL not found") = false ∧
    containsStr ("2024-01-01") ("Company symbol AAPL not found") = false ∧
    containsStr ("2024-01-02") ("Company symbol AAPL not found") = false := by
  refine ⟨rfl, rfl, rfl, rfl⟩

/- ---------------- claim C2 ---------------- -/

/-- C2: a request with start_date strictly after end_date never reaches
    the provider (the result is the same for every provider behaviour),
    but the endpoints answer HTTP 500, not 400: the HTTPException(400)
    raised inside the try-block is caught by the blanket except and
    re-raised as a 500 whose message embeds the original
    "400: End date cannot be before start date". -/
theorem c2_end_before_start_yields_500 :
    (∀ f, get_company_analysis ⟨"AAPL", "2024-02-02", "2024-02-01"⟩ f =
      .error ⟨500,
        "Error performing analysis: 400: End date cannot be before start date"⟩) ∧
    (∀ f, get_historical_stock_data ⟨"AAPL", "2024-02-02", "2024-02-01"⟩ f =
      .error ⟨500,
        "Error retrieving historical data: 400: End date cannot be before start date"⟩) := by
  constructor <;> intro f <;> rfl

/- ---------------- claim C3, counterexample ---------------- -/

/-- C3 fails as stated: on a 50-point close series whose last close is
    missing (NaN), the rolling 50-mean at the last row is NaN, so sma_50
    is serialised as NaN - neither a finite number nor the missing
    marker. -/
theorem c3_sma50_nan_leak :
    (analysisMetrics (List.replicate 49 (FV.fin 1) ++ [FV.nan])).sma_50 =
      some FV.nan ∧
    finOrNone ((analysisMetrics
      (List.replicate 49 (FV.fin 1) ++ [FV.nan])).sma_50) = false := by
  constructor <;> decide

/- ---------------- claim C4, counterexample ---------------- -/

/-- C4 fails as stated: strptime("%Y-%m-%d") accepts unpadded month and
    day fields, so "2024-1-5" is accepted although it is not in
    (zero-padded) YYYY-MM-DD form. -/
theorem c4_unpadded_accepted :
    validate_date ("2024-1-5") = true ∧ strictYMD ("2024-1-5") = false := by
  decide

/- ---------------- claim C7, counterexample ---------------- -/

/-- C7 fails as stated: price_change_percent is computed from the
    unrounded difference last - first, not from the rounded
    price_change_absolute.  With closes 3 and 3.004 the rounded absolute
    change is 0.00, so the claim's formula gives 0.00, but the endpoint
    reports 0.13. -/
theorem c7_uses_unrounded_difference :
    (analysisMetrics [FV.fin 3, FV.fin (3 + 4/1000)]).price_change_absolute =
      some (FV.fin 0) ∧
    (analysisMetrics [FV.fin 3, FV.fin (3 + 4/1000)]).price_change_percent =
      some (FV.fin (13/100)) ∧
    (analysisMetrics [FV.fin 3, FV.fin (3 + 4/1000)]).price_change_percent ≠
      some (round2FV (mulFV (divFV (FV.fin 0) (FV.fin 3)) (FV.fin 100))) := by
  refine ⟨by with_unfolding_all decide, by with_unfolding_all decide,
    by with_unfolding_all decide⟩

/- ---------------- claim C8, counterexample ---------------- -/

/-- C8 fails as stated: for the close series [0, 0] the claim's
    daily-return list (results from missing inputs dropped, everything
    else kept) is the non-empty [NaN] coming from the 0/0 pair, yet the
    endpoint's dropna also removes that NaN, so volatility is missing
    while the claim's list is non-empty. -/
theorem c8_zero_over_zero_pair :
    (analysisMetrics [FV.fin 0, FV.fin 0]).volatility = none ∧
    specClaimDailyReturns [FV.fin 0, FV.fin 0] ≠ [] := by
  refine ⟨by decide, by decide⟩

/- ---------------- claim C5 ---------------- -/

/-- C5: the trend label follows the claimed rules - computed by the code
    exactly as the spec words them (Neutral base, Bullish above 5,
    Bearish below -5, crossover override unless the same plain label is
    already set) - and its particular consequence: percent change above
    5 together with sma_50 > sma_200 yields exactly "Bullish". -/
theorem c5_trend_matches_spec (pcp s50 s200 : Option FV) :
    trendDirection pcp s50 s200 = specTrend pcp s50 s200 ∧
    (∀ p a b, pcp = some p → s50 = some a → s200 = some b →
      gtFV p (FV.fin 5) = true → gtFV a b = true →
      trendDirection pcp s50 s200 = "Bullish") := by
  constructor
  · cases pcp <;> cases s50 <;> cases s200 <;>
      simp only [trendDirection, specTrend] <;>
      split_ifs <;> simp_all
  · rintro p a b rfl rfl rfl h5 hab
    simp [trendDirection, h5, hab]

/-- Witness for C5 at a concrete input: percent change 6 with SMA values
    2 > 1 produces the plain "Bullish" label. -/
theorem c5_trend_witness :
    trendDirection (some (FV.fin 6)) (some (FV.fin 2)) (some (FV.fin 1)) =
      "Bullish" :=
  (c5_trend_matches_spec (some (FV.fin 6)) (some (FV.fin 2))
    (some (FV.fin 1))).2 (FV.fin 6) (FV.fin 2) (FV.fin 1) rfl rfl rfl
    (by decide) (by decide)

/- ---------------- claim C6 ---------------- -/

/-- C6: sma_50 (resp. sma_200) is missing exactly when the series has
    fewer than 50 (resp. 200) points, and on a series of exactly 50
    points sma_50 is the rounded arithmetic mean of all 50 closes (the
    trailing window is the whole series; no partial-window averaging
    occurs for shorter series, which give None). -/
theorem c6_sma_window_semantics (closes : List FV) :
    ((analysisMetrics closes).sma_50 = none ↔ closes.length < 50) ∧
    ((analysisMetrics closes).sma_200 = none ↔ closes.length < 200) ∧
    (closes.length = 50 →
      (analysisMetrics closes).sma_50 = some (round2FV (meanFV closes))) := by
  refine ⟨?_, ?_, ?_⟩
  · show smaN 50 closes = none ↔ _
    unfold smaN
    split_ifs with h <;> simp <;> omega
  · show smaN 200 closes = none ↔ _
    unfold smaN
    split_ifs with h <;> simp <;> omega
  · intro h
    show smaN 50 closes = _
    unfold smaN
    rw [if_pos (by omega)]
    unfold lastN
    rw [h]
    norm_num

/-- Witness for C6: a series of exactly 50 closes has a present sma_50
    equal to the rounded mean of all of them. -/
theorem c6_sma_witness :
    (analysisMetrics (List.replicate 50 (FV.fin 2))).sma_50 =
      some (round2FV (meanFV (List.replicate 50 (FV.fin 2)))) :=
  (c6_sma_window_semantics (List.replicate 50 (FV.fin 2))).2.2 (by decide)

/- ---------------- claim C9 ---------------- -/

theorem splitDot_ne_nil (l : List Char) : splitDot l ≠ [] := by
  cases l with
  | nil => simp [splitDot]
  | cons c r =>
    unfold splitDot
    split_ifs
    · simp
    · cases h : splitDot r <;> simp

theorem splitDot_no_dot (l : List Char) (h : '.' ∉ l) : splitDot l = [l] := by
  induction l with
  | nil => rfl
  | cons c r ih =>
    unfold splitDot
    rw [if_neg (by intro hc; exact h (hc ▸ List.mem_cons_self c r))]
    rw [ih (fun hm => h (List.mem_cons_of_mem c hm))]

theorem mem_splitDot_of_mem (l : List Char) (c : Char) (hc : c ∈ l)
    (hne : c ≠ '.') : ∃ p ∈ splitDot l, c ∈ p := by
  induction l with
  | nil => cases hc
  | cons x r ih =>
    unfold splitDot
    rcases List.mem_cons.mp hc with h | h
    · subst h
      rw [if_neg hne]
      cases hs : splitDot r with
      | nil => exact absurd hs (splitDot_ne_nil r)
      | cons p0 ps => exact ⟨c :: p0, List.mem_cons_self _ _, List.mem_cons_self _ _⟩
    · by_cases hx : x = '.'
      · rw [if_pos hx]
        obtain ⟨p, hp, hcp⟩ := ih h
        exact ⟨p, List.mem_cons_of_mem _ hp, hcp⟩
      · rw [if_neg hx]
        obtain ⟨p, hp, hcp⟩ := ih h
        cases hs : splitDot r with
        | nil => exact absurd hs (splitDot_ne_nil r)
        | cons p0 ps =>
          rw [hs] at hp
          rcases List.mem_cons.mp hp with h2 | h2
          · exact ⟨x :: p0, List.mem_cons_self _ _,
              List.mem_cons_of_mem _ (h2 ▸ hcp)⟩
          · exact ⟨p, List.mem_cons_of_mem _ h2, hcp⟩

/-- The contract of validate_symbol, as an iff against the spec's wording. -/
theorem validate_symbol_iff (s : String) :
    validate_symbol s = true ↔ specSymbolOK s := by
  unfold validate_symbol specSymbolOK isalnumStr
  simp only [Bool.or_eq_true, Bool.and_eq_true, List.all_eq_true,
    Bool.not_eq_true', List.isEmpty_eq_false_iff_exists_mem, List.isEmpty_iff,
    List.contains_iff_exists_mem_beq]
  constructor
  · rintro (⟨hne, hall⟩ | ⟨hdot, hparts⟩)
    · constructor
      · obtain ⟨c, hc⟩ := hne
        intro h0
        rw [h0] at hc
        cases hc
      · exact Or.inl hall
    · constructor
      · intro h0
        obtain ⟨c, hc, _⟩ := hdot
        rw [h0] at hc
        cases hc
      · refine Or.inr ?_
        intro part hp
        obtain ⟨h1, h2⟩ := hparts part hp
        refine ⟨?_, h2⟩
        intro h0
        obtain ⟨x, hx⟩ := h1
        rw [h0] at hx
        cases hx
  · rintro ⟨hne, hall | hparts⟩
    · left
      obtain ⟨c, hc⟩ := List.exists_mem_of_ne_nil s.data hne
      exact ⟨⟨c, hc⟩, hall⟩
    · by_cases hdot : '.' ∈ s.data
      · right
        refine ⟨⟨'.', hdot, by simp⟩, ?_⟩
        intro part hp
        obtain ⟨h1, h2⟩ := hparts part hp
        exact ⟨List.exists_mem_of_ne_nil part h1, h2⟩
      · left
        have hs := splitDot_no_dot s.data hdot
        obtain ⟨h1, h2⟩ := hparts s.data (by rw [hs]; exact List.mem_cons_self _ _)
        obtain ⟨c, hc⟩ := List.exists_mem_of_ne_nil s.data hne
        exact ⟨⟨c, hc⟩, h2⟩

/-- C9: validate_symbol accepts exactly the non-empty strings that are
    fully alphanumeric or a dot-separated sequence of non-empty
    alphanumeric segments, and rejects every string containing a
    character (such as whitespace or other punctuation) that is neither
    alphanumeric nor a dot. -/
theorem c9_validate_symbol_correct (s : String) :
    (validate_symbol s = true ↔ specSymbolOK s) ∧
    ((∃ c ∈ s.data, isalnumC c = false ∧ c ≠ '.') →
      validate_symbol s = false) := by
  refine ⟨validate_symbol_iff s, ?_⟩
  rintro ⟨c, hc, hal, hne⟩
  by_contra hvs
  have ht : validate_symbol s = true := by
    cases h : validate_symbol s
    · exact absurd h hvs
    · rfl
  rcases (validate_symbol_iff s).mp ht with ⟨_, hall | hparts⟩
  · rw [hall c hc] at hal
    cases hal
  · obtain ⟨p, hp, hcp⟩ := mem_splitDot_of_mem s.data c hc hne
    obtain ⟨_, h2⟩ := hparts p hp
    rw [h2 c hcp] at hal
    cases hal

/-- Witness for C9: a symbol containing a space is rejected. -/
theorem c9_witness : validate_symbol ("A B") = false :=
  (c9_validate_symbol_correct ("A B")).2 ⟨' ', by decide, by decide, by decide⟩

/- ---------------- claim C10 ---------------- -/

theorem analysisTryBody_ok_symbol (req : AnalysisRequest) (f : Fetch)
    (r : AnalysisResponse) (h : analysisTryBody req f = .ok r) :
    r.symbol = upperStr req.symbol := by
  cases f with
  | raises msg =>
    simp only [analysisTryBody] at h
    split_ifs at h
  | series rows =>
    simp only [analysisTryBody] at h
    split_ifs at h
    simp at h
    rw [← h]

theorem historicalTryBody_ok_symbol (req : AnalysisRequest) (f : Fetch)
    (r : HistoricalDataResponse) (h : historicalTryBody req f = .ok r) :
    r.symbol = upperStr req.symbol := by
  cases f with
  | raises msg =>
    simp only [historicalTryBody] at h
    split_ifs at h
  | series rows =>
    simp only [historicalTryBody] at h
    split_ifs at h
    cases hm : rowsToPoints rows with
    | error e => rw [hm] at h; simp at h
    | ok pts =>
      rw [hm] at h
      simp at h
      rw [← h]

/-- C10: on every successful response from any of the four endpoints,
    the symbol echoed in the body is the upper-cased request symbol
    (a lower- or mixed-case request symbol is not echoed verbatim). -/
theorem c10_success_symbol_uppercased :
    (∀ req f r, get_company_analysis req f = .ok r →
      r.symbol = upperStr req.symbol) ∧
    (∀ req f r, get_historical_stock_data req f = .ok r →
      r.symbol = upperStr req.symbol) ∧
    (∀ s f r, get_stock_data s f = .ok r → r.symbol = upperStr s) ∧
    (∀ s f r, get_company_info s f = .ok r → r.symbol = upperStr s) := by
  refine ⟨?_, ?_, ?_, ?_⟩
  · intro req f r h
    simp only [get_company_analysis] at h
    split_ifs at h <;> try simp at h
    cases ht : analysisTryBody req f with
    | error e => rw [ht] at h; simp at h
    | ok r2 =>
      rw [ht] at h
      simp at h
      rw [← h]
      exact analysisTryBody_ok_symbol req f r2 ht
  · intro req f r h
    simp only [get_historical_stock_data] at h
    split_ifs at h <;> try simp at h
    cases ht : historicalTryBody req f with
    | error e => rw [ht] at h; simp at h
    | ok r2 =>
      rw [ht] at h
      simp at h
      rw [← h]
      exact historicalTryBody_ok_symbol req f r2 ht
  · intro s f r h
    simp only [get_stock_data] at h
    split_ifs at h <;> try simp at h
    cases f with
    | raises msg => simp at h
    | info i =>
      simp at h
      rw [← h]
  · intro s f r h
    simp only [get_company_info] at h
    split_ifs at h <;> try simp at h
    cases f with
    | raises msg => simp at h
    | info i =>
      simp at h
      rw [← h]

/-- A one-row provider result used to exercise the success paths. -/
def fetchOneRow : Fetch :=
  .series [⟨"2024-01-01", .fin 1, .fin 1, .fin 1, .fin 1, .fin 1⟩]

/-- An empty ticker.info dictionary (every get returns None). -/
def emptyInfo : TickerInfo :=
  ⟨none, none, none, none, none, none, none, none, none, none, none, []⟩

/-- Witness for C10: concrete successful responses of all four endpoints
    echo the upper-cased symbol. -/
theorem c10_witness :
    (∃ r, get_company_analysis ⟨"aapl", "2024-01-01", "2024-01-02"⟩
        fetchOneRow = .ok r ∧ r.symbol = upperStr ("aapl")) ∧
    (∃ r, get_historical_stock_data ⟨"aapl", "2024-01-01", "2024-01-02"⟩
        fetchOneRow = .ok r ∧ r.symbol = upperStr ("aapl")) ∧
    (∃ r, get_stock_data ("aapl") (.info emptyInfo) = .ok r ∧
      r.symbol = upperStr ("aapl")) ∧
    (∃ r, get_company_info ("aapl") (.info emptyInfo) = .ok r ∧
      r.symbol = upperStr ("aapl")) := by
  refine ⟨?_, ?_, ?_, ?_⟩
  · have h : get_company_analysis ⟨"aapl", "2024-01-01", "2024-01-02"⟩
        fetchOneRow =
      .ok ⟨"AAPL", ⟨some (.fin 0), some (.fin 0), none, none, none,
        some (.fin 1), some (.fin 1)⟩, ⟨"Neutral", "Moderate"⟩⟩ := by
      with_unfolding_all rfl
    exact ⟨_, h, c10_success_symbol_uppercased.1 _ _ _ h⟩
  · have h : get_historical_stock_data ⟨"aapl", "2024-01-01", "2024-01-02"⟩
        fetchOneRow =
      .ok ⟨"AAPL", [⟨"2024-01-01", some (.fin 1), some (.fin 1),
        some (.fin 1), some (.fin 1), some 1⟩]⟩ := by
      with_unfolding_all rfl
    exact ⟨_, h, c10_success_symbol_uppercased.2.1 _ _ _ h⟩
  · have h : get_stock_data ("aapl") (.info emptyInfo) =
      .ok ⟨"AAPL", none, none, none, none, none, none, none, none⟩ := by
      with_unfolding_all rfl
    exact ⟨_, h, c10_success_symbol_uppercased.2.2.1 _ _ _ h⟩
  · have h : get_company_info ("aapl") (.info emptyInfo) =
      .ok ⟨"AAPL", none, none, none, none, []⟩ := by
      with_unfolding_all rfl
    exact ⟨_, h, c10_success_symbol_uppercased.2.2.2 _ _ _ h⟩

/- ---------------- claims C7 and C8, amended ---------------- -/

/-- C7 (amended): price_change_percent is
    (last - first) / first * 100 of the unrounded closes, rounded to 2
    decimals - not computed from the rounded price_change_absolute - and
    is missing exactly when price_change_absolute is missing or the
    first close is 0; with a zero first close and a present last close,
    price_change_absolute is present while price_change_percent is
    missing. -/
theorem c7_amended_percent_change (closes : List FV) :
    ((analysisMetrics closes).price_change_percent = none ↔
      ((analysisMetrics closes).price_change_absolute = none ∨
        closes.head?.getD FV.nan = FV.fin 0)) ∧
    ((analysisMetrics closes).price_change_absolute ≠ none →
      closes.head?.getD FV.nan ≠ FV.fin 0 →
      (analysisMetrics closes).price_change_percent =
        some (round2FV (mulFV (divFV
          (subFV (closes.getLast?.getD FV.nan) (closes.head?.getD FV.nan))
          (closes.head?.getD FV.nan)) (FV.fin 100)))) ∧
    (closes.head?.getD FV.nan = FV.fin 0 →
      isna (closes.getLast?.getD FV.nan) = false →
      (analysisMetrics closes).price_change_absolute ≠ none ∧
      (analysisMetrics closes).price_change_percent = none) := by
  simp only [analysisMetrics]
  refine ⟨?_, ?_, ?_⟩
  · cases hF : isna (closes.head?.getD FV.nan) <;>
      cases hL : isna (closes.getLast?.getD FV.nan) <;>
      by_cases h3 : closes.head?.getD FV.nan = FV.fin 0 <;>
      simp [hF, hL, h3]
  · intro hpca hne
    cases hF : isna (closes.head?.getD FV.nan) <;>
      cases hL : isna (closes.getLast?.getD FV.nan) <;>
      simp [hF, hL, hne] <;> simp [hF, hL] at hpca
  · intro h3 h2
    have h1 : isna (closes.head?.getD FV.nan) = false := by rw [h3]; rfl
    simp [h1, h2, h3]
    rfl

/-- Witness for C7 (amended): a series with first close 0 and a present
    last close has a present absolute change and a missing percent
    change. -/
theorem c7_amended_witness :
    (analysisMetrics [FV.fin 0, FV.fin 1]).price_change_absolute ≠ none ∧
    (analysisMetrics [FV.fin 0, FV.fin 1]).price_change_percent = none :=
  (c7_amended_percent_change [FV.fin 0, FV.fin 1]).2.2 rfl rfl

theorem dailyReturns_eq_amended (l : List FV) :
    dailyReturns l = specAmendedDailyReturns l := by
  cases l with
  | nil => rfl
  | cons a t =>
    simp [dailyReturns, pctChange, specAmendedDailyReturns, List.filter_cons,
      isna]

/-- C8 (amended): daily_returns is the pairwise relative change
    cur / prev - 1 over consecutive closes with every NaN result dropped
    (those from a missing input and the one from a 0/0 pair - this is
    dropna's behaviour); volatility is the standard deviation of that
    list times sqrt 252 times 100, rounded to 2 decimals, and is missing
    exactly when the list is empty. -/
theorem c8_amended_volatility (closes : List FV) :
    dailyReturns closes = specAmendedDailyReturns closes ∧
    ((analysisMetrics closes).volatility = none ↔ dailyReturns closes = []) ∧
    (dailyReturns closes ≠ [] →
      (analysisMetrics closes).volatility =
        some (volFromReturns (dailyReturns closes))) := by
  refine ⟨dailyReturns_eq_amended closes, ?_, ?_⟩
  · show (if dailyReturns closes ≠ [] then
        some (volFromReturns (dailyReturns closes)) else none) = none ↔ _
    by_cases h : dailyReturns closes = [] <;> simp [h]
  · intro h
    show (if dailyReturns closes ≠ [] then
        some (volFromReturns (dailyReturns closes)) else none) = _
    rw [if_pos h]

/-- Witness for C8 (amended): a two-point series has a present
    volatility given by the standard-deviation formula on its single
    daily return. -/
theorem c8_amended_witness :
    (analysisMetrics [FV.fin 1, FV.fin 2]).volatility =
      some (volFromReturns (dailyReturns [FV.fin 1, FV.fin 2])) :=
  (c8_amended_volatility [FV.fin 1, FV.fin 2]).2.2 (by with_unfolding_all decide)

/- ---------------- claim C3, amended ---------------- -/

theorem sumFV_fin (l : List FV) (h : ∀ x ∈ l, ∃ q : ℚ, x = FV.fin q) :
    ∃ q : ℚ, sumFV l = FV.fin q := by
  induction l with
  | nil => exact ⟨0, rfl⟩
  | cons a t ih =>
    obtain ⟨qa, ha⟩ := h a (List.mem_cons_self a t)
    obtain ⟨qt, ht⟩ := ih (fun x hx => h x (List.mem_cons_of_mem a hx))
    refine ⟨qa + qt, ?_⟩
    show addFV a (sumFV t) = _
    rw [ha, ht]
    rfl

theorem meanFV_fin (l : List FV) (hne : l ≠ [])
    (h : ∀ x ∈ l, ∃ q : ℚ, x = FV.fin q) : ∃ q : ℚ, meanFV l = FV.fin q := by
  obtain ⟨qs, hs⟩ := sumFV_fin l h
  have hlen : ((l.length : ℚ)) ≠ 0 := by
    simp [List.length_eq_zero, hne]
  refine ⟨qs / (l.length : ℚ), ?_⟩
  unfold meanFV
  rw [hs]
  simp [divFV, hlen]

theorem stdSqArg_fin (xs : List FV) (hne : xs ≠ [])
    (h : ∀ x ∈ xs, ∃ q : ℚ, x = FV.fin q) :
    ∃ v : ℚ, stdSqArg xs = FV.fin v := by
  obtain ⟨m, hm⟩ := meanFV_fin xs hne h
  unfold stdSqArg
  apply meanFV_fin
  · simp [hne]
  · intro y hy
    rw [List.mem_map] at hy
    obtain ⟨x, hx, rfl⟩ := hy
    obtain ⟨qx, hqx⟩ := h x hx
    exact ⟨(qx - m) * (qx - m), by rw [hqx, hm]; rfl⟩

theorem dailyReturns_fin (closes : List FV)
    (h : ∀ c ∈ closes, ∃ q : ℚ, c = FV.fin q ∧ q ≠ 0) :
    (∀ x ∈ dailyReturns closes, ∃ q : ℚ, x = FV.fin q) ∧
    (dailyReturns closes).length = closes.length - 1 := by
  have hmem : ∀ y ∈ (closes.zip closes.tail).map
      (fun pc => subFV (divFV pc.2 pc.1) (.fin 1)), ∃ q : ℚ, y = FV.fin q := by
    intro y hy
    rw [List.mem_map] at hy
    obtain ⟨⟨p, c⟩, hpc, rfl⟩ := hy
    obtain ⟨hp, hc⟩ := List.of_mem_zip hpc
    obtain ⟨qp, hqp, hqp0⟩ := h p hp
    obtain ⟨qc, hqc, _⟩ := h c (List.mem_of_mem_tail hc)
    refine ⟨qc / qp - 1, ?_⟩
    rw [hqp, hqc]
    simp [divFV, subFV, hqp0]
  have hfil : ((closes.zip closes.tail).map
      (fun pc => subFV (divFV pc.2 pc.1) (.fin 1))).filter
        (fun x => !isna x) =
      (closes.zip closes.tail).map (fun pc => subFV (divFV pc.2 pc.1) (.fin 1)) := by
    apply List.filter_eq_self.mpr
    intro a ha
    obtain ⟨q, hq⟩ := hmem a ha
    rw [hq]
    rfl
  rw [dailyReturns_eq_amended]
  unfold specAmendedDailyReturns
  rw [hfil]
  refine ⟨hmem, ?_⟩
  rw [List.length_map, List.length_zip, List.length_tail]
  omega

theorem foldl_maxFV2_fin (xs : List FV) :
    ∀ a : ℚ, (∀ x ∈ xs, ∃ q : ℚ, x = FV.fin q) →
      ∃ q : ℚ, xs.foldl maxFV2 (FV.fin a) = FV.fin q := by
  induction xs with
  | nil => exact fun a _ => ⟨a, rfl⟩
  | cons b t ih =>
    intro a h
    obtain ⟨qb, hb⟩ := h b (List.mem_cons_self b t)
    rw [List.foldl_cons, hb]
    show ∃ q : ℚ, t.foldl maxFV2 (FV.fin (max a qb)) = FV.fin q
    exact ih (max a qb) (fun x hx => h x (List.mem_cons_of_mem b hx))

theorem foldl_minFV2_fin (xs : List FV) :
    ∀ a : ℚ, (∀ x ∈ xs, ∃ q : ℚ, x = FV.fin q) →
      ∃ q : ℚ, xs.foldl minFV2 (FV.fin a) = FV.fin q := by
  induction xs with
  | nil => exact fun a _ => ⟨a, rfl⟩
  | cons b t ih =>
    intro a h
    obtain ⟨qb, hb⟩ := h b (List.mem_cons_self b t)
    rw [List.foldl_cons, hb]
    show ∃ q : ℚ, t.foldl minFV2 (FV.fin (min a qb)) = FV.fin q
    exact ih (min a qb) (fun x hx => h x (List.mem_cons_of_mem b hx))

theorem maxSkipNa_fin (l : List FV) (hne : l ≠ [])
    (h : ∀ x ∈ l, ∃ q : ℚ, x = FV.fin q) : ∃ q : ℚ, maxSkipNa l = FV.fin q := by
  have hfil : l.filter (fun x => !isna x) = l := by
    apply List.filter_eq_self.mpr
    intro a ha
    obtain ⟨q, hq⟩ := h a ha
    rw [hq]
    rfl
  unfold maxSkipNa
  rw [hfil]
  cases l with
  | nil => exact absurd rfl hne
  | cons a t =>
    obtain ⟨qa, ha⟩ := h a (List.mem_cons_self a t)
    rw [ha]
    exact foldl_maxFV2_fin t qa (fun x hx => h x (List.mem_cons_of_mem a hx))

theorem minSkipNa_fin (l : List FV) (hne : l ≠ [])
    (h : ∀ x ∈ l, ∃ q : ℚ, x = FV.fin q) : ∃ q : ℚ, minSkipNa l = FV.fin q := by
  have hfil : l.filter (fun x => !isna x) = l := by
    apply List.filter_eq_self.mpr
    intro a ha
    obtain ⟨q, hq⟩ := h a ha
    rw [hq]
    rfl
  unfold minSkipNa
  rw [hfil]
  cases l with
  | nil => exact absurd rfl hne
  | cons a t =>
    obtain ⟨qa, ha⟩ := h a (List.mem_cons_self a t)
    rw [ha]
    exact foldl_minFV2_fin t qa (fun x hx => h x (List.mem_cons_of_mem a hx))

/-- C3 (amended): for a nonempty close series in which every close is
    present and nonzero, every derived metric field is a finite number
    or None (NaN never appears), and a field is missing exactly when the
    series lacks enough points: volatility exactly for a one-point
    series, sma_50 below 50 points, sma_200 below 200 points, while the
    two changes and the recent high and low are always present (no
    division by zero can occur).  With missing or zero closes NaN can
    leak - see the counterexample. -/
theorem c3_amended_finite_fields (closes : List FV) (h1 : closes ≠ [])
    (h2 : ∀ c ∈ closes, ∃ q : ℚ, c = FV.fin q ∧ q ≠ 0) :
    (finOrNone (analysisMetrics closes).price_change_absolute = true ∧
      finOrNone (analysisMetrics closes).price_change_percent = true ∧
      finOrNone (analysisMetrics closes).volatility = true ∧
      finOrNone (analysisMetrics closes).sma_50 = true ∧
      finOrNone (analysisMetrics closes).sma_200 = true ∧
      finOrNone (analysisMetrics closes).recent_high = true ∧
      finOrNone (analysisMetrics closes).recent_low = true) ∧
    ((analysisMetrics closes).price_change_absolute ≠ none ∧
      (analysisMetrics closes).price_change_percent ≠ none ∧
      (analysisMetrics closes).recent_high ≠ none ∧
      (analysisMetrics closes).recent_low ≠ none) ∧
    ((analysisMetrics closes).volatility = none ↔ closes.length = 1) ∧
    ((analysisMetrics closes).sma_50 = none ↔ closes.length < 50) ∧
    ((analysisMetrics closes).sma_200 = none ↔ closes.length < 200) := by
  have hfin : ∀ c ∈ closes, ∃ q : ℚ, c = FV.fin q :=
    fun c hc => (h2 c hc).elim (fun q hq => ⟨q, hq.1⟩)
  have hFmem : closes.head?.getD FV.nan ∈ closes := by
    cases closes with
    | nil => exact absurd rfl h1
    | cons a t => exact List.mem_cons_self a t
  have hLmem : closes.getLast?.getD FV.nan ∈ closes := by
    cases closes with
    | nil => exact absurd rfl h1
    | cons a t =>
      rw [List.getLast?_eq_getLast (a :: t) (by simp)]
      exact List.getLast_mem _
  obtain ⟨qF, hqF, hqF0⟩ := h2 _ hFmem
  obtain ⟨qL, hqL, hqL0⟩ := h2 _ hLmem
  have hpca : (analysisMetrics closes).price_change_absolute
      = some (FV.fin (round2 (qL - qF))) := by
    simp only [analysisMetrics]
    rw [hqF, hqL]
    simp [isna, subFV, round2FV]
  have hpcp : (analysisMetrics closes).price_change_percent
      = some (FV.fin (round2 ((qL - qF) / qF * 100))) := by
    simp only [analysisMetrics]
    rw [hqF, hqL]
    simp [isna, subFV, divFV, mulFV, round2FV, hqF0]
  have hdr := dailyReturns_fin closes h2
  have hvolE : (analysisMetrics closes).volatility =
      (if dailyReturns closes ≠ [] then
        some (volFromReturns (dailyReturns closes)) else none) := rfl
  have hlenpos : 0 < closes.length := List.length_pos.mpr h1
  have hvol_iff : (analysisMetrics closes).volatility = none ↔
      closes.length = 1 := by
    rw [hvolE]
    by_cases hd : dailyReturns closes = []
    · have hd0 : (dailyReturns closes).length = 0 := by rw [hd]; rfl
      rw [hdr.2] at hd0
      simp [hd]
      omega
    · simp [hd]
      intro hlen1
      apply hd
      apply List.length_eq_zero.mp
      rw [hdr.2, hlen1]
  have hvol_fin : finOrNone (analysisMetrics closes).volatility = true := by
    rw [hvolE]
    by_cases hd : dailyReturns closes = []
    · simp [hd, finOrNone]
    · rw [if_pos hd]
      obtain ⟨v, hv⟩ := stdSqArg_fin (dailyReturns closes) hd hdr.1
      simp [volFromReturns, hv, finOrNone]
  have hlastN : ∀ n : ℕ, n ≤ closes.length → 0 < n → lastN n closes ≠ [] := by
    intro n hle hn
    have hlen : (lastN n closes).length = n := by
      unfold lastN
      rw [List.length_drop]
      omega
    intro hc
    rw [hc] at hlen
    simp at hlen
    omega
  have hsma_fin : ∀ n : ℕ, 0 < n → finOrNone (smaN n closes) = true := by
    intro n hn
    unfold smaN
    split_ifs with hle
    · have hsub : ∀ x ∈ lastN n closes, ∃ q : ℚ, x = FV.fin q :=
        fun x hx => hfin x (List.drop_subset _ _ hx)
      obtain ⟨m, hm⟩ := meanFV_fin _ (hlastN n hle hn) hsub
      simp [hm, round2FV, finOrNone]
    · rfl
  have hsma_iff : ∀ n : ℕ, (smaN n closes = none ↔ closes.length < n) := by
    intro n
    unfold smaN
    split_ifs with hle <;> simp <;> omega
  have hhigh : ∃ q : ℚ, (analysisMetrics closes).recent_high =
      some (FV.fin (round2 q)) := by
    obtain ⟨q, hq⟩ := maxSkipNa_fin closes h1 hfin
    refine ⟨q, ?_⟩
    show (if closes ≠ [] then some (round2FV (maxSkipNa closes)) else none) = _
    rw [if_pos h1, hq]
    rfl
  have hlow : ∃ q : ℚ, (analysisMetrics closes).recent_low =
      some (FV.fin (round2 q)) := by
    obtain ⟨q, hq⟩ := minSkipNa_fin closes h1 hfin
    refine ⟨q, ?_⟩
    show (if closes ≠ [] then some (round2FV (minSkipNa closes)) else none) = _
    rw [if_pos h1, hq]
    rfl
  obtain ⟨qh, hqh⟩ := hhigh
  obtain ⟨ql2, hql2⟩ := hlow
  refine ⟨⟨?_, ?_, hvol_fin, hsma_fin 50 (by omega), hsma_fin 200 (by omega),
      ?_, ?_⟩, ⟨?_, ?_, ?_, ?_⟩, hvol_iff, hsma_iff 50, hsma_iff 200⟩
  · rw [hpca]; rfl
  · rw [hpcp]; rfl
  · rw [hqh]; rfl
  · rw [hql2]; rfl
  · rw [hpca]; simp
  · rw [hpcp]; simp
  · rw [hqh]; simp
  · rw [hql2]; simp

/-- Witness for C3 (amended) at the two-point series [1, 2]: volatility
    is finite-or-missing and the sma_50 missing-condition holds. -/
theorem c3_amended_witness :
    finOrNone (analysisMetrics [FV.fin 1, FV.fin 2]).volatility = true ∧
    ((analysisMetrics [FV.fin 1, FV.fin 2]).sma_50 = none ↔
      ([FV.fin 1, FV.fin 2] : List FV).length < 50) := by
  have h := c3_amended_finite_fields [FV.fin 1, FV.fin 2] (by decide)
    (by
      intro c hc
      simp only [List.mem_cons, List.not_mem_nil, or_false] at hc
      rcases hc with rfl | rfl
      · exact ⟨1, rfl, one_ne_zero⟩
      · exact ⟨2, rfl, two_ne_zero⟩)
  exact ⟨h.1.2.2.1, h.2.2.2.1⟩

/- ---------------- claim C4, amended: parser characterisation ---------------- -/

theorem digitVal_le9 (c : Char) (v : ℕ) (h : digitVal c = some v) : v ≤ 9 := by
  unfold digitVal at h
  split_ifs at h with hc
  injection h with h
  omega

theorem expectDash_some (r r2 : List Char) :
    expectDash r = some r2 ↔ r = '-' :: r2 := by
  cases r with
  | nil => simp [expectDash]
  | cons c t =>
    simp only [expectDash]
    split_ifs with hc
    · subst hc
      simp
    · simp [hc]

theorem parseY_sound (l : List Char) (y : ℕ) (r : List Char)
    (h : parseY l = some (y, r)) : ∃ tok, l = tok ++ r ∧ Tok4Val tok y := by
  match l with
  | [] => simp [parseY] at h
  | [c1] => simp [parseY] at h
  | [c1, c2] => simp [parseY] at h
  | [c1, c2, c3] => simp [parseY] at h
  | c1 :: c2 :: c3 :: c4 :: r0 =>
    simp only [parseY] at h
    cases hd1 : digitVal c1 <;> rw [hd1] at h <;>
      cases hd2 : digitVal c2 <;> rw [hd2] at h <;>
      cases hd3 : digitVal c3 <;> rw [hd3] at h <;>
      cases hd4 : digitVal c4 <;> rw [hd4] at h <;>
      simp at h
    obtain ⟨hy, hr⟩ := h
    subst hr
    exact ⟨[c1, c2, c3, c4], rfl,
      c1, c2, c3, c4, _, _, _, _, rfl, hd1, hd2, hd3, hd4, hy.symm⟩

theorem parseY_complete (tok : List Char) (y : ℕ) (r : List Char)
    (h : Tok4Val tok y) : parseY (tok ++ r) = some (y, r) := by
  obtain ⟨c1, c2, c3, c4, a, b, c, d, rfl, h1, h2, h3, h4, rfl⟩ := h
  simp [parseY, h1, h2, h3, h4]

theorem mCands_sound (l : List Char) (m : ℕ) (r : List Char)
    (h : (m, r) ∈ mCands l) :
    ∃ tok, l = tok ++ r ∧ TokVal tok m ∧ 1 ≤ m ∧ m ≤ 12 := by
  unfold mCands at h
  rw [List.mem_append] at h
  rcases h with h | h
  · match l with
    | [] => simp [mTwo] at h
    | [c1] => simp [mTwo] at h
    | c1 :: c2 :: r0 =>
      simp only [mTwo] at h
      cases hd1 : digitVal c1 <;> rw [hd1] at h <;>
        cases hd2 : digitVal c2 <;> rw [hd2] at h <;> simp at h
      obtain ⟨hcond, hm, hr⟩ := h
      subst hr
      have ha := digitVal_le9 c1 _ hd1
      have hb := digitVal_le9 c2 _ hd2
      exact ⟨[c1, c2], rfl,
        Or.inr ⟨c1, c2, _, _, rfl, hd1, hd2, hm⟩, by omega, by omega⟩
  · match l with
    | [] => simp [oneDigit] at h
    | c1 :: r0 =>
      simp only [oneDigit] at h
      cases hd1 : digitVal c1 <;> rw [hd1] at h <;> simp at h
      obtain ⟨hcond, hm, hr⟩ := h
      subst hr
      have ha := digitVal_le9 c1 _ hd1
      subst hm
      exact ⟨[c1], rfl, Or.inl ⟨c1, rfl, hd1⟩, by omega, by omega⟩

theorem mCands_complete (tok : List Char) (m : ℕ) (r : List Char)
    (h : TokVal tok m) (h1 : 1 ≤ m) (h12 : m ≤ 12) :
    (m, r) ∈ mCands (tok ++ r) := by
  unfold mCands
  rw [List.mem_append]
  rcases h with ⟨c, rfl, hd⟩ | ⟨c1, c2, a, b, rfl, hd1, hd2, rfl⟩
  · right
    simp only [List.cons_append, List.nil_append, oneDigit, hd]
    simp [h1]
  · left
    have ha := digitVal_le9 c1 _ hd1
    have hb := digitVal_le9 c2 _ hd2
    simp only [List.cons_append, List.nil_append, mTwo, hd1, hd2]
    rw [if_pos (by omega)]
    simp

theorem dCands_sound (l : List Char) (d : ℕ) (r : List Char)
    (h : (d, r) ∈ dCands l) :
    ∃ tok, l = tok ++ r ∧ TokVal tok d ∧ 1 ≤ d ∧ d ≤ 31 := by
  unfold dCands at h
  rw [List.mem_append] at h
  rcases h with h | h
  · match l with
    | [] => simp [dTwo] at h
    | [c1] => simp [dTwo] at h
    | c1 :: c2 :: r0 =>
      simp only [dTwo] at h
      cases hd1 : digitVal c1 <;> rw [hd1] at h <;>
        cases hd2 : digitVal c2 <;> rw [hd2] at h <;> simp at h
      obtain ⟨hcond, hm, hr⟩ := h
      subst hr
      have ha := digitVal_le9 c1 _ hd1
      have hb := digitVal_le9 c2 _ hd2
      exact ⟨[c1, c2], rfl,
        Or.inr ⟨c1, c2, _, _, rfl, hd1, hd2, hm⟩, by omega, by omega⟩
  · match l with
    | [] => simp [oneDigit] at h
    | c1 :: r0 =>
      simp only [oneDigit] at h
      cases hd1 : digitVal c1 <;> rw [hd1] at h <;> simp at h
      obtain ⟨hcond, hm, hr⟩ := h
      subst hr
      have ha := digitVal_le9 c1 _ hd1
      subst hm
      exact ⟨[c1], rfl, Or.inl ⟨c1, rfl, hd1⟩, by omega, by omega⟩

theorem dCands_complete (tok : List Char) (d : ℕ) (r : List Char)
    (h : TokVal tok d) (h1 : 1 ≤ d) (h31 : d ≤ 31) :
    (d, r) ∈ dCands (tok ++ r) := by
  unfold dCands
  rw [List.mem_append]
  rcases h with ⟨c, rfl, hd⟩ | ⟨c1, c2, a, b, rfl, hd1, hd2, rfl⟩
  · right
    simp only [List.cons_append, List.nil_append, oneDigit, hd]
    simp [h1]
  · left
    have ha := digitVal_le9 c1 _ hd1
    have hb := digitVal_le9 c2 _ hd2
    simp only [List.cons_append, List.nil_append, dTwo, hd1, hd2]
    rw [if_pos (by omega)]
    simp

theorem daysInMonth_le_31 (y m : ℕ) : daysInMonth y m ≤ 31 := by
  unfold daysInMonth
  split_ifs <;> omega

theorem dateParses_sound (l : List Char) (y m d : ℕ)
    (h : (y, m, d) ∈ dateParses l) :
    ∃ yTok mTok dTok, l = yTok ++ '-' :: (mTok ++ '-' :: dTok) ∧
      Tok4Val yTok y ∧ TokVal mTok m ∧ TokVal dTok d ∧
      1 ≤ m ∧ m ≤ 12 ∧ 1 ≤ d ∧ d ≤ 31 := by
  unfold dateParses at h
  cases hy : parseY l with
  | none => simp only [hy] at h; simp at h
  | some yr =>
    obtain ⟨y0, r1⟩ := yr
    simp only [hy] at h
    cases hdash1 : expectDash r1 with
    | none => simp only [hdash1] at h; simp at h
    | some r2 =>
      simp only [hdash1] at h
      simp only [List.mem_flatMap] at h
      obtain ⟨mc, hmc, h⟩ := h
      obtain ⟨m0, rm⟩ := mc
      cases hdash2 : expectDash rm with
      | none => simp only [hdash2] at h; simp at h
      | some r4 =>
        simp only [hdash2] at h
        simp only [List.mem_filterMap] at h
        obtain ⟨dc, hdc, hif⟩ := h
        obtain ⟨d0, rd⟩ := dc
        split_ifs at hif with hrd
        have hrdn : rd = [] := hrd
        simp only [Option.some.injEq, Prod.mk.injEq] at hif
        obtain ⟨hy0, hm0, hd0⟩ := hif
        obtain ⟨yTok, hly, hY⟩ := parseY_sound l y0 r1 hy
        obtain ⟨mTok, hrm2, hM, hm1, hm12⟩ := mCands_sound r2 m0 rm hmc
        obtain ⟨dTok, hrd2, hD, hd1b, hd31⟩ := dCands_sound r4 d0 rd hdc
        refine ⟨yTok, mTok, dTok, ?_, hy0 ▸ hY, hm0 ▸ hM, hd0 ▸ hD,
          hm0 ▸ hm1, hm0 ▸ hm12, hd0 ▸ hd1b, hd0 ▸ hd31⟩
        rw [hly, (expectDash_some r1 r2).mp hdash1, hrm2,
          (expectDash_some rm r4).mp hdash2, hrd2, hrdn, List.append_nil]

theorem expectDash_dash (r : List Char) : expectDash ('-' :: r) = some r := by
  simp [expectDash]

theorem dateParses_complete (yTok mTok dTok : List Char) (y m d : ℕ)
    (hY : Tok4Val yTok y) (hM : TokVal mTok m) (hD : TokVal dTok d)
    (hm1 : 1 ≤ m) (hm12 : m ≤ 12) (hd1 : 1 ≤ d) (hd31 : d ≤ 31) :
    (y, m, d) ∈ dateParses (yTok ++ '-' :: (mTok ++ '-' :: dTok)) := by
  unfold dateParses
  simp only [parseY_complete yTok y ('-' :: (mTok ++ '-' :: dTok)) hY,
    expectDash_dash]
  rw [List.mem_flatMap]
  refine ⟨(m, '-' :: dTok), mCands_complete mTok m ('-' :: dTok) hM hm1 hm12, ?_⟩
  simp only [expectDash_dash]
  rw [List.mem_filterMap]
  refine ⟨(d, []), ?_, by simp⟩
  have hc := dCands_complete dTok d [] hD hd1 hd31
  rw [List.append_nil] at hc
  exact hc

/-- C4 (amended): validate_date accepts exactly the strings consisting
    of a four-digit year, a dash, a one- or two-digit month, a dash and
    a one- or two-digit day that denote a valid calendar date (year at
    least 1, month 1-12, day within the month's length) - so zero
    padding of month and day is optional, and every string denoting an
    invalid calendar date, or not of this shape, is rejected. -/
theorem c4_amended_validate_date (s : String) :
    validate_date s = true ↔ LenientDate s := by
  unfold validate_date LenientDate
  rw [List.any_eq_true]
  constructor
  · rintro ⟨⟨y, m, d⟩, hmem, hok⟩
    obtain ⟨yTok, mTok, dTok, hl, hY, hM, hD, _, _, _, _⟩ :=
      dateParses_sound s.data y m d hmem
    exact ⟨y, m, d, yTok, mTok, dTok, hl, hY, hM, hD, hok⟩
  · rintro ⟨y, m, d, yTok, mTok, dTok, hl, hY, hM, hD, hok⟩
    refine ⟨(y, m, d), ?_, hok⟩
    rw [hl]
    have hprops : 1 ≤ y ∧ y ≤ 9999 ∧ 1 ≤ m ∧ m ≤ 12 ∧ 1 ≤ d ∧
        d ≤ daysInMonth y m := by
      simpa [dateOK] using hok
    exact dateParses_complete yTok mTok dTok y m d hY hM hD hprops.2.2.1
      hprops.2.2.2.1 hprops.2.2.2.2.1
      (le_trans hprops.2.2.2.2.2 (daysInMonth_le_31 y m))
